import Mathlib

/-!
Shallow embedding of the Nexora-Data resource checker (src/tool.py).

The program audits server-descriptor JSON records against an entitlement
table (resource → required package) and a customer package index
(lower-cased username → owned package set).  The embedding models:

* `PyVal` — the values produced by `json.load`;
* `process_json_file` — the per-record evaluator (lines 48–75), with Python
  exceptions made explicit via `Except` and both `except` arms of the source
  reproduced;
* `scan_servers_parallel` — the coordinator (lines 77–101); worker-completion
  order is an explicit `arrival` parameter (a permutation of the dispatched
  file list), and the per-record error strings printed by the loop are
  collected in `printed_errors`;
* `load_customer_packages` — the customer CSV loader (lines 25–46).
-/

namespace NexoraCheck

/-- A value as produced by Python `json.load`: strings, numbers, booleans,
null, arrays and (string-keyed) objects. -/
inductive PyVal where
  | vstr (s : String)
  | vint (n : Int)
  | vbool (b : Bool)
  | vnull
  | vlist (items : List PyVal)
  | vdict (entries : List (String × PyVal))

/-- The Python type name of a value, as it appears in runtime error texts. -/
def PyVal.typeName : PyVal → String
  | .vstr _ => "str"
  | .vint _ => "int"
  | .vbool _ => "bool"
  | .vnull => "NoneType"
  | .vlist _ => "list"
  | .vdict _ => "dict"

/-- Lookup in a parsed JSON object (a Python `dict` keyed by strings). -/
def dictGet (entries : List (String × PyVal)) (k : String) : Option PyVal :=
  (entries.find? (fun e => e.1 == k)).map (fun e => e.2)

/-- Python `v.get(k, default)`: on a dict, lookup with default; on any other
value an `AttributeError` is raised. -/
def pyGet (v : PyVal) (k : String) (default : PyVal) : Except String PyVal :=
  match v with
  | .vdict entries => .ok ((dictGet entries k).getD default)
  | other => .error (other.typeName ++ " object has no attribute get")

/-- Python ASCII `str.lower()` applied to the characters of a string. -/
def pyLowerStr (s : String) : String :=
  String.mk (s.data.map Char.toLower)

/-- Python `v.lower()`: defined on strings, `AttributeError` otherwise. -/
def pyLower : PyVal → Except String String
  | .vstr s => .ok (pyLowerStr s)
  | other => .error (other.typeName ++ " object has no attribute lower")

/-- Python `needle in items` for a string needle and a list: true iff the
list has an element equal (as a Python value) to the string. -/
def strMem (needle : String) : List PyVal → Bool
  | [] => false
  | .vstr s :: rest => s == needle || strMem needle rest
  | _ :: rest => strMem needle rest

/-- Python `needle in hay` substring test on character lists. -/
def subMem (needle : List Char) : List Char → Bool
  | [] => needle.isEmpty
  | c :: rest => needle.isPrefixOf (c :: rest) || subMem needle rest

/-- Python `needle in container` for a string needle: membership in a list,
substring test in a string, key test in a dict; `TypeError` otherwise. -/
def pyIn (needle : String) : PyVal → Except String Bool
  | .vlist items => .ok (strMem needle items)
  | .vstr s => .ok (subMem needle.data s.data)
  | .vdict entries => .ok (entries.any (fun e => e.1 == needle))
  | other => .error ("argument of type " ++ other.typeName ++ " is not iterable")

/-- The entitlement table: `resource_id` → `required_package_id` pairs in
dict insertion order (a Python dict, so the keys are unique). -/
abbrev Requirements := List (String × String)

/-- The customer package index: association list from lower-cased username
to the owned package set (a Python `dict` of `set`s). -/
abbrev UserPackages := List (String × Finset String)

/-- `user_packages.get(key, ...)` — dict lookup. -/
def alGet (m : UserPackages) (k : String) : Option (Finset String) :=
  (m.find? (fun e => e.1 == k)).map (fun e => e.2)

/-- `user_packages.get(key, set())` — dict lookup with empty-set default. -/
def alGetD (m : UserPackages) (k : String) : Finset String :=
  (alGet m k).getD ∅

/-- `user_packages[key] = v` — dict update: replace the entry when the key
is present, append it otherwise. -/
def alSet (m : UserPackages) (k : String) (v : Finset String) : UserPackages :=
  if m.any (fun e => e.1 == k) then
    m.map (fun e => if e.1 == k then (k, v) else e)
  else m ++ [(k, v)]

/-- The keys of the customer index. -/
def alKeys (m : UserPackages) : List String := m.map Prod.fst

/-- What reading one server JSON file yields: either a decode failure
(`json.JSONDecodeError` / `UnicodeDecodeError` with its message) or a parsed
value. -/
inductive FileContent where
  | decodeError (msg : String)
  | parsed (data : PyVal)

/-- One server record source: the file name (`json_file.name`) and the
outcome of reading and decoding its backing data. -/
structure SRecord where
  name : String
  content : FileContent

/-- One violation entry, as appended by `process_json_file` (lines 63–70). -/
structure Violation where
  server_code : PyVal
  owner_name : PyVal
  owner_profile : PyVal
  resource : String
  required_package : String
  file_name : String

/-- The `for resource, required_package in requirements.items()` loop of
`process_json_file` (lines 59–70): one entry per rule whose resource the
record uses without the owner owning the required package.  A `TypeError`
raised by the membership test aborts the loop (and the whole record). -/
def checkLoop (file_name : String) (server_code owner_name owner_profile : PyVal)
    (server_resources : PyVal) (owner_key : String) (user_packages : UserPackages) :
    Requirements → Except String (List Violation)
  | [] => .ok []
  | (resource, required_package) :: rest =>
    match pyIn resource server_resources with
    | .error e => .error e
    | .ok b =>
      let here : List Violation :=
        if b then
          let owner_owned := alGetD user_packages owner_key
          if required_package ∉ owner_owned then
            [⟨server_code, owner_name, owner_profile, resource, required_package, file_name⟩]
          else []
        else []
      match checkLoop file_name server_code owner_name owner_profile server_resources
          owner_key user_packages rest with
      | .error e => .error e
      | .ok vs => .ok (here ++ vs)

/-- The body of the `try` block of `process_json_file` after a successful
`json.load` (lines 54–70): field extraction with Python defaulting
(`data.get("Data", {})` is evaluated once per extracted field, as in the
source) followed by the rule loop.  Any raised error propagates. -/
def evalBody (name : String) (data : PyVal) (requirements : Requirements)
    (user_packages : UserPackages) : Except String (List Violation) :=
  match pyGet data "Data" (PyVal.vdict []) with
  | .error e => .error e
  | .ok data1 =>
  match pyGet data1 "resources" (PyVal.vlist []) with
  | .error e => .error e
  | .ok server_resources =>
  match pyGet data "Data" (PyVal.vdict []) with
  | .error e => .error e
  | .ok data2 =>
  match pyGet data2 "ownerName" (PyVal.vstr "N/A") with
  | .error e => .error e
  | .ok owner_name =>
  match pyGet data "Data" (PyVal.vdict []) with
  | .error e => .error e
  | .ok data3 =>
  match pyGet data3 "ownerProfile" (PyVal.vstr "N/A") with
  | .error e => .error e
  | .ok owner_profile =>
  match pyGet data "EndPoint" (PyVal.vstr "N/A") with
  | .error e => .error e
  | .ok server_code =>
  match pyLower owner_name with
  | .error e => .error e
  | .ok owner_key =>
    checkLoop name server_code owner_name owner_profile server_resources
      owner_key user_packages requirements

/-- `process_json_file` (lines 48–75): evaluate one record against the two
lookup tables, returning the violation list and an optional error string.
Decode failures take the `Error reading` arm, every other raised error the
`Unexpected error with` arm; both discard any partially built violations. -/
def process_json_file (json_file : SRecord) (requirements : Requirements)
    (user_packages : UserPackages) : List Violation × Option String :=
  match json_file.content with
  | .decodeError e =>
    ([], some ("Error reading " ++ json_file.name ++ ": " ++ e))
  | .parsed data =>
    match evalBody json_file.name data requirements user_packages with
    | .ok unauthorized_servers => (unauthorized_servers, none)
    | .error e => ([], some ("Unexpected error with " ++ json_file.name ++ ": " ++ e))

/-- The coordinator state of `scan_servers_parallel`: the accumulated
violation list, the two running counters, and the per-record error strings
printed so far (line 94), in completion order. -/
structure ScanState where
  unauthorized_servers : List Violation
  processed_files : Nat
  found_servers : Nat
  printed_errors : List String

/-- One iteration of the `as_completed` collection loop (lines 90–99). -/
def scanStep (requirements : Requirements) (user_packages : UserPackages)
    (st : ScanState) (json_file : SRecord) : ScanState :=
  let pr := process_json_file json_file requirements user_packages
  let st1 : ScanState := { st with processed_files := st.processed_files + 1 }
  let st2 : ScanState :=
    match pr.2 with
    | some e => { st1 with printed_errors := st1.printed_errors ++ [e] }
    | none => st1
  if pr.1.isEmpty then st2
  else { st2 with
         found_servers := st2.found_servers + pr.1.length,
         unauthorized_servers := st2.unauthorized_servers ++ pr.1 }

/-- The collection loop over the futures in completion order. -/
def scanLoop (requirements : Requirements) (user_packages : UserPackages)
    (arrival : List SRecord) : ScanState :=
  arrival.foldl (scanStep requirements user_packages) ⟨[], 0, 0, []⟩

/-- `scan_servers_parallel` (lines 77–101).  `json_files` is the enumerated
input set (dispatch order); `arrival` is the order in which worker results
complete, a permutation of `json_files`.  An empty input short-circuits
before any worker is dispatched (lines 80–82). -/
def scan_servers_parallel (json_files arrival : List SRecord)
    (requirements : Requirements) (user_packages : UserPackages) : ScanState :=
  if json_files.length = 0 then ⟨[], 0, 0, []⟩
  else scanLoop requirements user_packages arrival

/-- The triple actually returned by `scan_servers_parallel` (line 101):
`unauthorized_servers, processed_files, found_servers`. -/
def scanReturn (st : ScanState) : List Violation × Nat × Nat :=
  (st.unauthorized_servers, st.processed_files, st.found_servers)

/-- Python whitespace, as matched by `str.strip()` and the `\s` class. -/
def isPyWs (c : Char) : Bool :=
  c == ' ' || c == '\t' || c == '\n' || c == '\r' || c == '\x0b' || c == '\x0c'

/-- Python `str.strip()`: drop leading and trailing whitespace. -/
def pyStrip (s : String) : String :=
  String.mk (((s.data.dropWhile isPyWs).reverse.dropWhile isPyWs).reverse)

/-- The `Packages` field normalization of `load_customer_packages`
(lines 39–42): strip bracket and quote characters, turn each semicolon into
a comma, split on runs of commas and whitespace, strip the fragments and
drop the empty ones, collecting a set. -/
def normalizePackages (packages_field : String) : Finset String :=
  let clean_field : List Char :=
    ((packages_field.data.filter
      (fun c => !(c == '[' || c == ']' || c == '\"'))).map
      (fun c => if c == ';' then ',' else c))
  let owned_packages : List String :=
    (clean_field.splitOnP (fun c => c == ',' || isPyWs c)).map
      (fun cs => pyStrip (String.mk cs))
  (owned_packages.filter (fun p => !(p == ""))).toFinset

/-- One row of the customer CSV, with its `Username` and `Packages` cells. -/
structure CsvRow where
  username : String
  packages : String
deriving DecidableEq

/-- One iteration of the row loop of `load_customer_packages` (lines 33–45):
strip and lower-case the username, skip empty usernames, and accumulate the
row's normalized package set into the entry by union. -/
def loadStep (user_packages : UserPackages) (row : CsvRow) : UserPackages :=
  let username := pyStrip row.username
  let packages_field := pyStrip row.packages
  if username = "" then user_packages
  else
    let key := pyLowerStr username
    let owned_packages := normalizePackages packages_field
    alSet user_packages key (alGetD user_packages key ∪ owned_packages)

/-- `load_customer_packages` (lines 25–46): build the username → owned
package set index, lower-casing usernames, skipping rows with an empty
username and accumulating package sets across rows by union. -/
def load_customer_packages (rows : List CsvRow) : UserPackages :=
  rows.foldl loadStep []

/-- Does this CSV row contribute to lookup key `u` (nonempty username whose
lower-cased, stripped form is `u`)? -/
def matchRow (u : String) (row : CsvRow) : Bool :=
  !(pyStrip row.username == "") && pyLowerStr (pyStrip row.username) == u

/-- The package set one CSV row contributes. -/
def rowOwned (row : CsvRow) : Finset String :=
  normalizePackages (pyStrip row.packages)

/-- The union of the package sets of all rows contributing to key `u`. -/
def unionNorms (rows : List CsvRow) (u : String) : Finset String :=
  rows.foldr (fun row acc => if matchRow u row then rowOwned row ∪ acc else acc) ∅

/-- Strict lexicographic comparison of character lists by code point, the
order Python uses on strings. -/
def chLtB : List Char → List Char → Bool
  | _, [] => false
  | [], _ :: _ => true
  | a :: as, b :: bs =>
    if a.toNat < b.toNat then true
    else if b.toNat < a.toNat then false
    else chLtB as bs

/-- Strict lexicographic comparison of strings. -/
def strLtB (a b : String) : Bool := chLtB a.data b.data

/-- Non-strict lexicographic comparison of strings. -/
def strLeB (a b : String) : Bool := strLtB a b || a == b

/-- Non-strict lexicographic comparison of `(source, resource)` key pairs. -/
def keyLeB (a b : String × String) : Bool :=
  strLtB a.1 b.1 || (a.1 == b.1 && strLeB a.2 b.2)

/-- The report sort key of a violation: `(source_identifier, resource)`. -/
def vkey (v : Violation) : String × String := (v.file_name, v.resource)

/-- Ascending order on violations by `(source_identifier, resource)`. -/
def vle (v w : Violation) : Prop := keyLeB (vkey v) (vkey w) = true

instance : DecidableRel vle := fun v w => by unfold vle; infer_instance

/-- The deterministic report ordering: sort the violation list ascending by
`(source_identifier, resource)`. -/
def sortViolations (l : List Violation) : List Violation :=
  List.insertionSort vle l

/-- A server record of the documented shape: `EndPoint` at top level and
`resources`, `ownerName`, `ownerProfile` under `Data`. -/
def canonRecord (name : String) (endpoint : PyVal) (ownerS : String)
    (profile : PyVal) (resItems : List PyVal) : SRecord :=
  ⟨name, .parsed (.vdict [("EndPoint", endpoint),
    ("Data", .vdict [("resources", .vlist resItems),
      ("ownerName", .vstr ownerS), ("ownerProfile", profile)])])⟩

/-- A plain string-valued record of the documented shape. -/
def sampleRec (nm code owner : String) (res : List String) : SRecord :=
  canonRecord nm (.vstr code) owner (.vstr "basic") (res.map PyVal.vstr)

/-- A one-rule entitlement table for concrete scenarios. -/
def demoReqs : Requirements := [("gpu-cluster", "pkg-gpu")]

/-- A one-customer index for concrete scenarios (alice owns the package). -/
def demoPkgs : UserPackages := [("alice", {"pkg-gpu"})]

/-- A violating record read from `a.json`. -/
def recA : SRecord := sampleRec "a.json" "srvA" "bob" ["gpu-cluster"]

/-- A violating record read from `b.json`. -/
def recB : SRecord := sampleRec "b.json" "srvB" "carol" ["gpu-cluster"]

/-- A record whose top-level object has no `Data` key. -/
def recDataAbsent : SRecord :=
  ⟨"srv4.json", .parsed (.vdict [("EndPoint", .vstr "srv4")])⟩

/-- A record whose backing data fails to decode, one error message. -/
def recBoom : SRecord := ⟨"a.json", .decodeError "boom"⟩

/-- A record whose backing data fails to decode, another error message. -/
def recZap : SRecord := ⟨"a.json", .decodeError "zap"⟩

/-! ### Properties of the lexicographic key order -/

lemma str_ext {s t : String} (h : s.data = t.data) : s = t :=
  congrArg String.mk h

lemma chLtB_irrefl : ∀ a, chLtB a a = false
  | [] => rfl
  | c :: cs => by simp [chLtB, Nat.lt_irrefl, chLtB_irrefl cs]

lemma chLtB_asymm : ∀ a b, chLtB a b = true → chLtB b a = true → False := by
  intro a
  induction a with
  | nil =>
    intro b h1 h2
    cases b <;> simp [chLtB] at h1 h2
  | cons c cs ih =>
    intro b h1 h2
    cases b with
    | nil => simp [chLtB] at h1
    | cons d ds =>
      simp only [chLtB] at h1 h2
      by_cases h : c.toNat < d.toNat
      · simp [h, Nat.lt_asymm h] at h2
      · by_cases h' : d.toNat < c.toNat
        · simp [h, h'] at h1
        · simp [h, h'] at h1 h2
          exact ih ds h1 h2

lemma chLtB_trans : ∀ a b c, chLtB a b = true → chLtB b c = true → chLtB a c = true := by
  intro a
  induction a with
  | nil =>
    intro b c h1 h2
    cases c with
    | nil => cases b <;> simp [chLtB] at h1 h2
    | cons _ _ => simp [chLtB]
  | cons x xs ih =>
    intro b c h1 h2
    cases b with
    | nil => simp [chLtB] at h1
    | cons y ys =>
      cases c with
      | nil => simp [chLtB] at h2
      | cons z zs =>
        simp only [chLtB] at h1 h2 ⊢
        by_cases hxy : x.toNat < y.toNat
        · by_cases hyz : y.toNat < z.toNat
          · simp [Nat.lt_trans hxy hyz]
          · by_cases hzy : z.toNat < y.toNat
            · simp [hyz, hzy] at h2
            · have hxz : x.toNat < z.toNat := by omega
              simp [hxz]
        · by_cases hyx : y.toNat < x.toNat
          · simp [hxy, hyx] at h1
          · simp [hxy, hyx] at h1
            by_cases hyz : y.toNat < z.toNat
            · have hxz : x.toNat < z.toNat := by omega
              simp [hxz]
            · by_cases hzy : z.toNat < y.toNat
              · simp [hyz, hzy] at h2
              · simp [hyz, hzy] at h2
                have hxz : ¬ x.toNat < z.toNat := by omega
                have hzx : ¬ z.toNat < x.toNat := by omega
                simp [hxz, hzx]
                exact ih ys zs h1 h2

lemma chLtB_total : ∀ a b, chLtB a b = true ∨ a = b ∨ chLtB b a = true := by
  intro a
  induction a with
  | nil =>
    intro b
    cases b with
    | nil => exact Or.inr (Or.inl rfl)
    | cons _ _ => exact Or.inl (by simp [chLtB])
  | cons x xs ih =>
    intro b
    cases b with
    | nil => exact Or.inr (Or.inr (by simp [chLtB]))
    | cons y ys =>
      rcases Nat.lt_trichotomy x.toNat y.toNat with h | h | h
      · exact Or.inl (by simp [chLtB, h])
      · have hxy : x = y := Char.eq_of_val_eq (UInt32.ext h)
        subst hxy
        rcases ih ys with h' | h' | h'
        · exact Or.inl (by simp [chLtB, Nat.lt_irrefl, h'])
        · exact Or.inr (Or.inl (by rw [h']))
        · exact Or.inr (Or.inr (by simp [chLtB, Nat.lt_irrefl, h']))
      · exact Or.inr (Or.inr (by simp [chLtB, h]))

lemma keyLeB_iff (a b : String × String) :
    keyLeB a b = true ↔
      chLtB a.1.data b.1.data = true
      ∨ (a.1 = b.1 ∧ (chLtB a.2.data b.2.data = true ∨ a.2 = b.2)) := by
  simp [keyLeB, strLeB, strLtB, Bool.or_eq_true, Bool.and_eq_true, beq_iff_eq]

lemma keyLeB_total (a b : String × String) : keyLeB a b = true ∨ keyLeB b a = true := by
  rw [keyLeB_iff, keyLeB_iff]
  rcases chLtB_total a.1.data b.1.data with h | h | h
  · exact Or.inl (Or.inl h)
  · have h1 : a.1 = b.1 := str_ext h
    rcases chLtB_total a.2.data b.2.data with h' | h' | h'
    · exact Or.inl (Or.inr ⟨h1, Or.inl h'⟩)
    · exact Or.inl (Or.inr ⟨h1, Or.inr (str_ext h')⟩)
    · exact Or.inr (Or.inr ⟨h1.symm, Or.inl h'⟩)
  · exact Or.inr (Or.inl h)

lemma keyLeB_trans {a b c : String × String}
    (h1 : keyLeB a b = true) (h2 : keyLeB b c = true) : keyLeB a c = true := by
  rw [keyLeB_iff] at h1 h2 ⊢
  rcases h1 with h1 | ⟨e1, h1⟩
  · rcases h2 with h2 | ⟨e2, _⟩
    · exact Or.inl (chLtB_trans _ _ _ h1 h2)
    · exact Or.inl (e2 ▸ h1)
  · rcases h2 with h2 | ⟨e2, h2⟩
    · exact Or.inl (e1 ▸ h2)
    · refine Or.inr ⟨e1.trans e2, ?_⟩
      rcases h1 with h1 | h1
      · rcases h2 with h2 | h2
        · exact Or.inl (chLtB_trans _ _ _ h1 h2)
        · exact Or.inl (h2 ▸ h1)
      · rcases h2 with h2 | h2
        · exact Or.inl (h1 ▸ h2)
        · exact Or.inr (h1.trans h2)

lemma keyLeB_antisymm {a b : String × String}
    (h1 : keyLeB a b = true) (h2 : keyLeB b a = true) : a = b := by
  rw [keyLeB_iff] at h1 h2
  rcases h1 with h1 | ⟨e1, h1⟩
  · rcases h2 with h2 | ⟨e2, _⟩
    · exact (chLtB_asymm _ _ h1 h2).elim
    · rw [e2, chLtB_irrefl] at h1
      exact absurd h1 (by simp)
  · rcases h2 with h2 | ⟨_, h2⟩
    · rw [e1, chLtB_irrefl] at h2
      exact absurd h2 (by simp)
    · have e2 : a.2 = b.2 := by
        rcases h1 with h1 | h1
        · rcases h2 with h2 | h2
          · exact (chLtB_asymm _ _ h1 h2).elim
          · exact h2.symm
        · exact h1
      exact Prod.ext e1 e2

instance : IsTotal Violation vle :=
  ⟨fun a b => keyLeB_total (vkey a) (vkey b)⟩

instance : IsTrans Violation vle :=
  ⟨fun _ _ _ h1 h2 => keyLeB_trans h1 h2⟩

lemma vle_antisymm_key {a b : Violation} (h1 : vle a b) (h2 : vle b a) :
    vkey a = vkey b :=
  keyLeB_antisymm h1 h2

/-- Two sorted lists that are permutations of each other and have pairwise
distinct sort keys are equal. -/
lemma sorted_perm_nodup_eq : ∀ {l1 l2 : List Violation}, l1.Perm l2 →
    l1.Sorted vle → l2.Sorted vle → (l1.map vkey).Nodup → l1 = l2 := by
  intro l1
  induction l1 with
  | nil =>
    intro l2 hp _ _ _
    exact (hp.symm.eq_nil).symm
  | cons a t1 ih =>
    intro l2 hp hs1 hs2 hnd
    cases l2 with
    | nil => exact absurd hp.eq_nil (by simp)
    | cons b t2 =>
      have hab : a = b := by
        by_cases h : a = b
        · exact h
        · have hbmem : b ∈ a :: t1 := hp.symm.subset (by simp)
          have hbt1 : b ∈ t1 := by
            rcases List.mem_cons.mp hbmem with h1 | h1
            · exact absurd h1.symm h
            · exact h1
          have hamem : a ∈ b :: t2 := hp.subset (by simp)
          have hat2 : a ∈ t2 := by
            rcases List.mem_cons.mp hamem with h1 | h1
            · exact absurd h1 h
            · exact h1
          have h1 : vle a b := (List.sorted_cons.mp hs1).1 b hbt1
          have h2 : vle b a := (List.sorted_cons.mp hs2).1 a hat2
          have hk : vkey a = vkey b := vle_antisymm_key h1 h2
          have : vkey a ∈ t1.map vkey := hk ▸ List.mem_map_of_mem vkey hbt1
          exact absurd this (by
            simp only [List.map_cons, List.nodup_cons] at hnd
            exact hnd.1)
      subst hab
      have ht : t1.Perm t2 := hp.cons_inv
      have := ih ht (List.sorted_cons.mp hs1).2 (List.sorted_cons.mp hs2).2
        (by simp only [List.map_cons, List.nodup_cons] at hnd; exact hnd.2)
      rw [this]

/-! ### Properties of the record evaluator -/

lemma strMem_iff (needle : String) : ∀ items : List PyVal,
    strMem needle items = true ↔ PyVal.vstr needle ∈ items := by
  intro items
  induction items with
  | nil => simp [strMem]
  | cons x rest ih =>
    cases x with
    | vstr s =>
      simp only [strMem, Bool.or_eq_true, beq_iff_eq, ih, List.mem_cons]
      constructor
      · rintro (h | h)
        · exact Or.inl (by rw [h])
        · exact Or.inr h
      · rintro (h | h)
        · exact Or.inl (PyVal.vstr.injEq _ _ ▸ h).symm
        · exact Or.inr h
    | vint n => simp [strMem, ih, List.mem_cons]
    | vbool b => simp [strMem, ih, List.mem_cons]
    | vnull => simp [strMem, ih, List.mem_cons]
    | vlist items2 => simp [strMem, ih, List.mem_cons]
    | vdict entries => simp [strMem, ih, List.mem_cons]

lemma checkLoop_ok_props (n : String) (sc ow opr sr : PyVal) (key : String)
    (p : UserPackages) : ∀ reqs vs,
    checkLoop n sc ow opr sr key p reqs = .ok vs →
      (∀ v ∈ vs, v.file_name = n)
      ∧ (vs.map Violation.resource).Sublist (reqs.map Prod.fst) := by
  intro reqs
  induction reqs with
  | nil =>
    intro vs h
    simp only [checkLoop, Except.ok.injEq] at h
    subst h
    simp
  | cons rp rest ih =>
    intro vs h
    obtain ⟨resource, required_package⟩ := rp
    simp only [checkLoop] at h
    cases hin : pyIn resource sr with
    | error e => rw [hin] at h; exact absurd h (by simp)
    | ok b =>
      rw [hin] at h
      cases hrest : checkLoop n sc ow opr sr key p rest with
      | error e => rw [hrest] at h; exact absurd h (by simp)
      | ok vs' =>
        rw [hrest] at h
        simp only [Except.ok.injEq] at h
        subst h
        obtain ⟨ihf, ihs⟩ := ih vs' hrest
        have hhere : ∀ v ∈ (if b then
            if required_package ∉ alGetD p key then
              [(⟨sc, ow, opr, resource, required_package, n⟩ : Violation)]
            else []
          else []), v = (⟨sc, ow, opr, resource, required_package, n⟩ : Violation) := by
          intro v hv
          split at hv
          · split at hv
            · simpa using hv
            · simp at hv
          · simp at hv
        constructor
        · intro v hv
          rcases List.mem_append.mp hv with hv | hv
          · rw [hhere v hv]
          · exact ihf v hv
        · have hsubr : (List.map Violation.resource vs').Sublist
              (resource :: List.map Prod.fst rest) :=
            ihs.trans (List.sublist_cons_self _ _)
          rw [List.map_append, List.map_cons]
          by_cases hb : b
          · rw [if_pos hb]
            by_cases hm : required_package ∉ alGetD p key
            · rw [if_pos hm]
              simpa using ihs.cons₂ resource
            · rw [if_neg hm]
              simpa using hsubr
          · rw [if_neg hb]
            simpa using hsubr

lemma checkLoop_vlist_ok (n : String) (sc ow opr : PyVal) (items : List PyVal)
    (key : String) (p : UserPackages) :
    ∀ reqs, ∃ vs, checkLoop n sc ow opr (.vlist items) key p reqs = .ok vs := by
  intro reqs
  induction reqs with
  | nil => exact ⟨[], rfl⟩
  | cons rp rest ih =>
    obtain ⟨vs, hvs⟩ := ih
    obtain ⟨resource, required_package⟩ := rp
    refine ⟨(if strMem resource items then
        if required_package ∉ alGetD p key then
          [(⟨sc, ow, opr, resource, required_package, n⟩ : Violation)]
        else []
      else []) ++ vs, ?_⟩
    simp only [checkLoop, pyIn]
    rw [hvs]

lemma checkLoop_countP (n : String) (sc ow opr sr : PyVal) (key : String)
    (p : UserPackages) (r pk : String) (bb : Bool) (hin : pyIn r sr = .ok bb) :
    ∀ reqs vs, (reqs.map Prod.fst).Nodup → (r, pk) ∈ reqs →
      checkLoop n sc ow opr sr key p reqs = .ok vs →
      vs.countP (fun v => v.resource == r)
        = if bb = true ∧ pk ∉ alGetD p key then 1 else 0 := by
  intro reqs
  induction reqs with
  | nil =>
    intro vs _ hmem _
    exact absurd hmem (by simp)
  | cons rp rest ih =>
    intro vs hnd hmem h
    obtain ⟨a, b⟩ := rp
    simp only [checkLoop] at h
    cases hain : pyIn a sr with
    | error e => rw [hain] at h; exact absurd h (by simp)
    | ok bv =>
      rw [hain] at h
      cases hrest : checkLoop n sc ow opr sr key p rest with
      | error e => rw [hrest] at h; exact absurd h (by simp)
      | ok vs' =>
        rw [hrest] at h
        simp only [Except.ok.injEq] at h
        subst h
        rw [List.countP_append]
        simp only [List.map_cons, List.nodup_cons] at hnd
        by_cases har : a = r
        · subst har
          have hbpk : b = pk := by
            rcases List.mem_cons.mp hmem with h1 | h1
            · exact ((Prod.ext_iff.mp h1).2).symm
            · exact absurd (List.mem_map_of_mem Prod.fst h1) hnd.1
          have hbv : bv = bb := by
            rw [hain] at hin
            exact Except.ok.inj hin
          have hvs' : vs'.countP (fun v => v.resource == a) = 0 := by
            rw [List.countP_eq_zero]
            intro v hv
            have hsub := (checkLoop_ok_props n sc ow opr sr key p rest vs' hrest).2
            have hms : v.resource ∈ rest.map Prod.fst :=
              hsub.subset (List.mem_map_of_mem Violation.resource hv)
            simp only [beq_iff_eq]
            intro he
            rw [he] at hms
            exact hnd.1 hms
          rw [hvs', Nat.add_zero, hbv, hbpk]
          by_cases hbb : bb = true
          · by_cases hm : pk ∉ alGetD p key
            · simp [hbb, hm, List.countP_cons, beq_iff_eq]
            · simp [hbb, hm, List.countP_cons, beq_iff_eq]
          · simp [hbb]
        · have hhc : (List.countP (fun v => v.resource == r)
              (if bv = true then
                if b ∉ alGetD p key then
                  [(⟨sc, ow, opr, a, b, n⟩ : Violation)]
                else []
              else [])) = 0 := by
            split
            · split
              · simp [List.countP_cons, beq_iff_eq, har]
              · simp
            · simp
          rw [hhc]
          have hmem' : (r, pk) ∈ rest := by
            rcases List.mem_cons.mp hmem with h1 | h1
            · exact absurd ((Prod.ext_iff.mp h1).1).symm har
            · exact h1
          rw [ih vs' hnd.2 hmem' hrest]
          omega

lemma evalBody_cases (nm : String) (data : PyVal) (q : Requirements)
    (p : UserPackages) :
    (∃ e, evalBody nm data q p = .error e)
    ∨ (∃ sc ow opr sr key vs, evalBody nm data q p = .ok vs
        ∧ checkLoop nm sc ow opr sr key p q = .ok vs) := by
  cases h1 : pyGet data "Data" (PyVal.vdict []) with
  | error e => exact Or.inl ⟨e, by simp only [evalBody, h1]⟩
  | ok data1 =>
  cases h2 : pyGet data1 "resources" (PyVal.vlist []) with
  | error e => exact Or.inl ⟨e, by simp only [evalBody, h1, h2]⟩
  | ok sr =>
  cases h3 : pyGet data1 "ownerName" (PyVal.vstr "N/A") with
  | error e => exact Or.inl ⟨e, by simp only [evalBody, h1, h2, h3]⟩
  | ok ow =>
  cases h4 : pyGet data1 "ownerProfile" (PyVal.vstr "N/A") with
  | error e => exact Or.inl ⟨e, by simp only [evalBody, h1, h2, h3, h4]⟩
  | ok opr =>
  cases h5 : pyGet data "EndPoint" (PyVal.vstr "N/A") with
  | error e => exact Or.inl ⟨e, by simp only [evalBody, h1, h2, h3, h4, h5]⟩
  | ok sc =>
  cases h6 : pyLower ow with
  | error e => exact Or.inl ⟨e, by simp only [evalBody, h1, h2, h3, h4, h5, h6]⟩
  | ok key =>
  cases hcl : checkLoop nm sc ow opr sr key p q with
  | error e =>
    exact Or.inl ⟨e, by simp only [evalBody, h1, h2, h3, h4, h5, h6, hcl]⟩
  | ok vs =>
    exact Or.inr ⟨sc, ow, opr, sr, key, vs,
      by simp only [evalBody, h1, h2, h3, h4, h5, h6, hcl], hcl⟩

lemma process_cases (rec : SRecord) (q : Requirements) (p : UserPackages) :
    (∃ vs, process_json_file rec q p = (vs, none)
        ∧ ∃ sc ow opr sr key, checkLoop rec.name sc ow opr sr key p q = .ok vs)
    ∨ (∃ m, process_json_file rec q p = ([], some m)) := by
  obtain ⟨nm, content⟩ := rec
  cases content with
  | decodeError e => exact Or.inr ⟨_, rfl⟩
  | parsed data =>
    rcases evalBody_cases nm data q p with ⟨e, he⟩ | ⟨sc, ow, opr, sr, key, vs, he, hcl⟩
    · exact Or.inr ⟨"Unexpected error with " ++ nm ++ ": " ++ e,
        by simp [process_json_file, he]⟩
    · exact Or.inl ⟨vs, by simp [process_json_file, he], sc, ow, opr, sr, key, hcl⟩

lemma process_fileName (rec : SRecord) (q : Requirements) (p : UserPackages) :
    ∀ v ∈ (process_json_file rec q p).1, v.file_name = rec.name := by
  intro v hv
  rcases process_cases rec q p with ⟨vs, heq, sc, ow, opr, sr, key, hcl⟩ | ⟨m, heq⟩
  · rw [heq] at hv
    exact (checkLoop_ok_props rec.name sc ow opr sr key p q vs hcl).1 v hv
  · rw [heq] at hv
    simp at hv

lemma process_resource_nodup (rec : SRecord) (q : Requirements) (p : UserPackages)
    (hq : (q.map Prod.fst).Nodup) :
    ((process_json_file rec q p).1.map Violation.resource).Nodup := by
  rcases process_cases rec q p with ⟨vs, heq, sc, ow, opr, sr, key, hcl⟩ | ⟨m, heq⟩
  · rw [heq]
    exact ((checkLoop_ok_props rec.name sc ow opr sr key p q vs hcl).2).nodup hq
  · rw [heq]
    simp

lemma process_vkey_nodup (rec : SRecord) (q : Requirements) (p : UserPackages)
    (hq : (q.map Prod.fst).Nodup) :
    ((process_json_file rec q p).1.map vkey).Nodup := by
  have hmap : ((process_json_file rec q p).1.map vkey).map Prod.snd
      = (process_json_file rec q p).1.map Violation.resource := by
    simp [vkey, Function.comp_def]
  exact List.Nodup.of_map Prod.snd
    (hmap.symm ▸ process_resource_nodup rec q p hq)

lemma process_empty_reqs (rec : SRecord) (p : UserPackages) :
    (process_json_file rec [] p).1 = [] := by
  rcases process_cases rec [] p with ⟨vs, heq, sc, ow, opr, sr, key, hcl⟩ | ⟨m, heq⟩
  · simp only [checkLoop, Except.ok.injEq] at hcl
    rw [heq, ← hcl]
  · rw [heq]

/-! ### Properties of the scan coordinator -/

lemma scanStep_eq (q : Requirements) (p : UserPackages) (st : ScanState)
    (r : SRecord) :
    scanStep q p st r =
      ⟨st.unauthorized_servers ++ (process_json_file r q p).1,
       st.processed_files + 1,
       st.found_servers + (process_json_file r q p).1.length,
       st.printed_errors ++ (match (process_json_file r q p).2 with
          | some e => [e] | none => [])⟩ := by
  unfold scanStep
  rcases hpr : process_json_file r q p with ⟨result, error⟩
  by_cases hres : result = []
  · subst hres
    cases error <;> simp [hpr]
  · cases error <;> simp [hpr, List.isEmpty_iff, hres]

lemma scanLoop_spec (q : Requirements) (p : UserPackages) :
    ∀ (l : List SRecord) (st : ScanState),
    l.foldl (scanStep q p) st =
      ⟨st.unauthorized_servers ++ l.flatMap (fun r => (process_json_file r q p).1),
       st.processed_files + l.length,
       st.found_servers + (l.flatMap (fun r => (process_json_file r q p).1)).length,
       st.printed_errors ++ l.filterMap (fun r => (process_json_file r q p).2)⟩ := by
  intro l
  induction l with
  | nil => intro st; simp
  | cons r rest ih =>
    intro st
    rw [List.foldl_cons, scanStep_eq, ih]
    simp only [List.flatMap_cons, List.filterMap_cons, ScanState.mk.injEq]
    refine ⟨by simp [List.append_assoc], by simp [List.length_cons]; omega, ?_, ?_⟩
    · simp only [List.length_append]
      omega
    · cases herr : (process_json_file r q p).2 <;> simp [List.append_assoc]

lemma scanLoop_eq (q : Requirements) (p : UserPackages) (l : List SRecord) :
    scanLoop q p l =
      ⟨l.flatMap (fun r => (process_json_file r q p).1),
       l.length,
       (l.flatMap (fun r => (process_json_file r q p).1)).length,
       l.filterMap (fun r => (process_json_file r q p).2)⟩ := by
  unfold scanLoop
  rw [scanLoop_spec]
  simp

lemma scan_ne_empty (json_files arrival : List SRecord) (q : Requirements)
    (p : UserPackages) (h : json_files ≠ []) :
    scan_servers_parallel json_files arrival q p = scanLoop q p arrival := by
  simp [scan_servers_parallel, List.length_eq_zero, h]

lemma scan_eq_loop (l : List SRecord) (q : Requirements) (p : UserPackages) :
    scan_servers_parallel l l q p = scanLoop q p l := by
  cases l with
  | nil => rfl
  | cons r rest => simp [scan_servers_parallel]

lemma mem_flatMap_vkey_fst (q : Requirements) (p : UserPackages) (l : List SRecord)
    (k : String × String)
    (hk : k ∈ (l.flatMap (fun r => (process_json_file r q p).1)).map vkey) :
    k.1 ∈ l.map SRecord.name := by
  rcases List.mem_map.mp hk with ⟨v, hv, hkv⟩
  rcases List.mem_flatMap.mp hv with ⟨r, hr, hvr⟩
  refine List.mem_map.mpr ⟨r, hr, ?_⟩
  rw [← hkv]
  exact (process_fileName r q p v hvr).symm

lemma flatMap_vkey_nodup (q : Requirements) (p : UserPackages)
    (hq : (q.map Prod.fst).Nodup) :
    ∀ l : List SRecord, (l.map SRecord.name).Nodup →
      ((l.flatMap (fun r => (process_json_file r q p).1)).map vkey).Nodup := by
  intro l
  induction l with
  | nil => intro _; simp
  | cons r rest ih =>
    intro hnd
    simp only [List.map_cons, List.nodup_cons] at hnd
    rw [List.flatMap_cons, List.map_append]
    refine List.Nodup.append (process_vkey_nodup r q p hq) (ih hnd.2) ?_
    intro k hk1 hk2
    have h1 : k.1 = r.name := by
      rcases List.mem_map.mp hk1 with ⟨v, hv, hkv⟩
      rw [← hkv]
      exact process_fileName r q p v hv
    have h2 := mem_flatMap_vkey_fst q p rest k hk2
    rw [h1] at h2
    exact hnd.1 h2

/-! ### Properties of the customer index loader -/

lemma alGet_nil (k : String) : alGet [] k = none := rfl

lemma alGet_cons (e : String × Finset String) (m : UserPackages) (k : String) :
    alGet (e :: m) k = if (e.1 == k) = true then some e.2 else alGet m k := by
  unfold alGet
  by_cases he : (e.1 == k) = true
  · rw [@List.find?_cons_of_pos _ (fun x => x.1 == k) e m he, if_pos he]
    rfl
  · rw [@List.find?_cons_of_neg _ (fun x => x.1 == k) e m he, if_neg he]

lemma alGet_map_update (k : String) (v : Finset String) :
    ∀ m : UserPackages,
    alGet (m.map (fun e => if e.1 == k then (k, v) else e)) k
      = if m.any (fun e => e.1 == k) = true then some v else none := by
  intro m
  induction m with
  | nil => simp [alGet]
  | cons e rest ih =>
    rw [List.map_cons, alGet_cons, List.any_cons]
    by_cases he : (e.1 == k) = true
    · rw [if_pos he]
      simp [he]
    · rw [if_neg he]
      simp only [he, Bool.false_or]
      rw [ih]
      simp [he]

lemma alGet_map_ne (k : String) (v : Finset String) (u : String) (hne : u ≠ k) :
    ∀ m : UserPackages,
    alGet (m.map (fun e => if e.1 == k then (k, v) else e)) u = alGet m u := by
  intro m
  induction m with
  | nil => rfl
  | cons e rest ih =>
    rw [List.map_cons, alGet_cons, alGet_cons]
    by_cases he : (e.1 == k) = true
    · rw [if_pos he]
      have h1 : (k == u) = false := by
        simp only [beq_eq_false_iff_ne, ne_eq]
        exact fun h => hne h.symm
      have h2 : (e.1 == u) = false := by
        rw [beq_iff_eq] at he
        simp only [beq_eq_false_iff_ne, ne_eq, he]
        exact fun h => hne h.symm
      rw [if_neg (by simp [h1]), if_neg (by simp [h2])]
      exact ih
    · rw [if_neg he, ih]

lemma alGet_append_one_ne (k : String) (v : Finset String) (u : String)
    (hne : u ≠ k) : ∀ m : UserPackages, alGet (m ++ [(k, v)]) u = alGet m u := by
  intro m
  induction m with
  | nil =>
    rw [List.nil_append, alGet_cons]
    have h1 : (k == u) = false := by
      simp only [beq_eq_false_iff_ne, ne_eq]
      exact fun h => hne h.symm
    simp [h1, alGet_nil]
  | cons e rest ih =>
    rw [List.cons_append, alGet_cons, alGet_cons, ih]

lemma alGet_append_one_self (k : String) (v : Finset String) :
    ∀ m : UserPackages, m.any (fun e => e.1 == k) = false →
      alGet (m ++ [(k, v)]) k = some v := by
  intro m
  induction m with
  | nil =>
    intro _
    rw [List.nil_append, alGet_cons]
    simp
  | cons e rest ih =>
    intro h
    simp only [List.any_cons, Bool.or_eq_false_iff] at h
    rw [List.cons_append, alGet_cons, if_neg (by simp [h.1])]
    exact ih h.2

lemma alGet_alSet_self (m : UserPackages) (k : String) (v : Finset String) :
    alGet (alSet m k v) k = some v := by
  unfold alSet
  by_cases hany : m.any (fun e => e.1 == k) = true
  · rw [if_pos hany, alGet_map_update, if_pos hany]
  · rw [if_neg hany]
    refine alGet_append_one_self k v m ?_
    simp only [Bool.not_eq_true] at hany
    exact hany

lemma alGet_alSet_ne (m : UserPackages) (k : String) (v : Finset String)
    (u : String) (hne : u ≠ k) : alGet (alSet m k v) u = alGet m u := by
  unfold alSet
  by_cases hany : m.any (fun e => e.1 == k) = true
  · rw [if_pos hany, alGet_map_ne k v u hne]
  · rw [if_neg hany, alGet_append_one_ne k v u hne]

lemma alKeys_nodup_alSet (m : UserPackages) (k : String) (v : Finset String)
    (h : (alKeys m).Nodup) : (alKeys (alSet m k v)).Nodup := by
  unfold alSet
  by_cases hany : m.any (fun e => e.1 == k) = true
  · rw [if_pos hany]
    have hkeys : alKeys (m.map (fun e => if e.1 == k then (k, v) else e))
        = alKeys m := by
      unfold alKeys
      rw [List.map_map]
      refine List.map_congr_left ?_
      intro e _
      by_cases he : (e.1 == k) = true
      · simp only [Function.comp_apply, if_pos he]
        exact (beq_iff_eq.mp he).symm
      · simp only [Function.comp_apply, if_neg he]
    rw [hkeys]
    exact h
  · rw [if_neg hany]
    unfold alKeys
    rw [List.map_append]
    refine List.Nodup.append h (by simp) ?_
    intro a ha hb
    have hb' : a = k := by simpa using hb
    subst hb'
    rcases List.mem_map.mp ha with ⟨e, he, hek⟩
    exact hany (List.any_eq_true.mpr ⟨e, he, by simp [hek]⟩)

lemma unionNorms_cons (row : CsvRow) (rest : List CsvRow) (u : String) :
    unionNorms (row :: rest) u
      = if matchRow u row = true then rowOwned row ∪ unionNorms rest u
        else unionNorms rest u := rfl

lemma unionNorms_of_no_match (u : String) : ∀ rows : List CsvRow,
    rows.any (matchRow u) = false → unionNorms rows u = ∅ := by
  intro rows
  induction rows with
  | nil => intro _; rfl
  | cons row rest ih =>
    intro h
    simp only [List.any_cons, Bool.or_eq_false_iff] at h
    rw [unionNorms_cons, if_neg (by simp [h.1])]
    exact ih h.2

lemma loadStep_eq (m : UserPackages) (row : CsvRow) :
    loadStep m row =
      if pyStrip row.username = "" then m
      else alSet m (pyLowerStr (pyStrip row.username))
        (alGetD m (pyLowerStr (pyStrip row.username))
          ∪ normalizePackages (pyStrip row.packages)) := rfl

lemma load_go_nodup : ∀ (rows : List CsvRow) (m : UserPackages),
    (alKeys m).Nodup → (alKeys (rows.foldl loadStep m)).Nodup := by
  intro rows
  induction rows with
  | nil => intro m h; exact h
  | cons row rest ih =>
    intro m h
    rw [List.foldl_cons, loadStep_eq]
    refine ih _ ?_
    by_cases hu : pyStrip row.username = ""
    · rw [if_pos hu]
      exact h
    · rw [if_neg hu]
      exact alKeys_nodup_alSet _ _ _ h

lemma load_go_lookup (u : String) : ∀ (rows : List CsvRow) (m : UserPackages),
    alGet (rows.foldl loadStep m) u
      = if rows.any (matchRow u) = true
        then some (alGetD m u ∪ unionNorms rows u)
        else alGet m u := by
  intro rows
  induction rows with
  | nil => intro m; simp [unionNorms]
  | cons row rest ih =>
    intro m
    rw [List.foldl_cons, loadStep_eq]
    by_cases hu : pyStrip row.username = ""
    · rw [if_pos hu]
      have hm : matchRow u row = false := by simp [matchRow, hu]
      rw [ih m, unionNorms_cons, hm]
      simp [List.any_cons, hm]
    · rw [if_neg hu]
      by_cases huk : u = pyLowerStr (pyStrip row.username)
      · have hm : matchRow u row = true := by
          simp [matchRow, hu, huk]
        have hget : alGet (alSet m (pyLowerStr (pyStrip row.username))
            (alGetD m (pyLowerStr (pyStrip row.username))
              ∪ normalizePackages (pyStrip row.packages))) u
            = some (alGetD m u ∪ rowOwned row) := by
          rw [huk, alGet_alSet_self]
          rfl
        have hgd : alGetD (alSet m (pyLowerStr (pyStrip row.username))
            (alGetD m (pyLowerStr (pyStrip row.username))
              ∪ normalizePackages (pyStrip row.packages))) u
            = alGetD m u ∪ rowOwned row := by
          rw [alGetD, hget]
          rfl
        rw [ih _, unionNorms_cons, hm]
        by_cases hrest : rest.any (matchRow u) = true
        · rw [if_pos hrest, hgd]
          simp [List.any_cons, hm, Finset.union_assoc]
        · rw [if_neg hrest, hget,
            unionNorms_of_no_match u rest (by simpa using hrest)]
          simp [List.any_cons, hm]
      · have hm : matchRow u row = false := by
          simp only [matchRow, Bool.and_eq_false_iff]
          refine Or.inr ?_
          simp only [beq_eq_false_iff_ne, ne_eq]
          exact fun h => huk h.symm
        have hgd : alGetD (alSet m (pyLowerStr (pyStrip row.username))
            (alGetD m (pyLowerStr (pyStrip row.username))
              ∪ normalizePackages (pyStrip row.packages))) u = alGetD m u := by
          unfold alGetD
          rw [alGet_alSet_ne _ _ _ _ huk]
        rw [ih _, unionNorms_cons, hm, hgd, alGet_alSet_ne _ _ _ _ huk]
        simp [List.any_cons, hm]

lemma countP_key_eq_one : ∀ (m : UserPackages) (u : String),
    (alKeys m).Nodup → u ∈ alKeys m →
    m.countP (fun e => e.1 == u) = 1 := by
  intro m
  induction m with
  | nil =>
    intro u _ h
    simp [alKeys] at h
  | cons e rest ih =>
    intro u hnd hmem
    simp only [alKeys, List.map_cons, List.nodup_cons] at hnd
    rw [List.countP_cons]
    by_cases he : e.1 = u
    · have h0 : rest.countP (fun x => x.1 == u) = 0 := by
        rw [List.countP_eq_zero]
        intro x hx
        simp only [beq_iff_eq]
        intro hxu
        refine hnd.1 ?_
        rw [he, ← hxu]
        exact List.mem_map_of_mem Prod.fst hx
      simp [h0, he]
    · have hmem' : u ∈ alKeys rest := by
        simp only [alKeys, List.map_cons, List.mem_cons] at hmem
        rcases hmem with h1 | h1
        · exact absurd h1.symm he
        · exact h1
      rw [ih u hnd.2 hmem']
      simp [he]

lemma alGet_mem_keys (m : UserPackages) (u : String) (s : Finset String)
    (h : alGet m u = some s) : u ∈ alKeys m := by
  unfold alGet at h
  cases hf : m.find? (fun e => e.1 == u) with
  | none => rw [hf] at h; simp at h
  | some e =>
    have h1 := List.find?_some hf
    have h2 := List.mem_of_find?_eq_some hf
    rw [← beq_iff_eq.mp h1]
    exact List.mem_map_of_mem Prod.fst h2

lemma checkLoop_empty_resources (n : String) (sc ow opr : PyVal) (key : String)
    (p : UserPackages) : ∀ reqs,
    checkLoop n sc ow opr (.vlist []) key p reqs = .ok [] := by
  intro reqs
  induction reqs with
  | nil => rfl
  | cons rp rest ih =>
    obtain ⟨resource, required_package⟩ := rp
    simp only [checkLoop, pyIn, strMem]
    rw [ih]
    rfl

/-! ### The claims -/

/-- C3: for every record (including undecodable or ill-shaped backing data)
the evaluator never raises: it returns either a violation list with no
diagnostic, or zero violations together with one diagnostic string that
carries the record's source identifier and a human-readable cause. -/
theorem claim_evaluator_total (rec : SRecord) (q : Requirements)
    (p : UserPackages) :
    (∃ vs, process_json_file rec q p = (vs, none))
    ∨ (∃ cause,
        process_json_file rec q p
          = ([], some ("Error reading " ++ rec.name ++ ": " ++ cause))
        ∨ process_json_file rec q p
          = ([], some ("Unexpected error with " ++ rec.name ++ ": " ++ cause))) := by
  obtain ⟨nm, content⟩ := rec
  cases content with
  | decodeError e => exact Or.inr ⟨e, Or.inl rfl⟩
  | parsed data =>
    rcases evalBody_cases nm data q p with ⟨e, he⟩ | ⟨sc, ow, opr, sr, key, vs, he, _⟩
    · exact Or.inr ⟨e, Or.inr (by simp [process_json_file, he])⟩
    · exact Or.inl ⟨vs, by simp [process_json_file, he]⟩

/-- C4 (counterexample): a record whose `Data` field is absent does NOT
produce a diagnostic: the claim "zero violations and exactly one Diagnostic"
fails on the concrete record `recDataAbsent`, whose evaluation returns no
diagnostic at all. -/
theorem claim_data_absent_cex :
    ¬ ((process_json_file recDataAbsent demoReqs demoPkgs).1 = []
        ∧ ∃ m, (process_json_file recDataAbsent demoReqs demoPkgs).2 = some m) := by
  intro h
  rcases h.2 with ⟨m, hm⟩
  rw [show (process_json_file recDataAbsent demoReqs demoPkgs).2 = none from rfl] at hm
  cases hm

/-- C4 (amended): a record whose `Data` field is absent yields zero
violations and zero diagnostics — the extraction defaults `resources` to the
empty list and the owner fields to `"N/A"` instead of failing, so the record
is processed silently. -/
theorem claim_data_absent_silent (name : String)
    (entries : List (String × PyVal)) (q : Requirements) (p : UserPackages)
    (h : dictGet entries "Data" = none) :
    process_json_file ⟨name, .parsed (.vdict entries)⟩ q p = ([], none) := by
  have h1 : pyGet (PyVal.vdict entries) "Data" (PyVal.vdict [])
      = .ok (PyVal.vdict []) := by
    simp [pyGet, h]
  have h2 : pyGet (PyVal.vdict []) "resources" (PyVal.vlist [])
      = .ok (PyVal.vlist []) := rfl
  have h3 : pyGet (PyVal.vdict []) "ownerName" (PyVal.vstr "N/A")
      = .ok (PyVal.vstr "N/A") := rfl
  have h4 : pyGet (PyVal.vdict []) "ownerProfile" (PyVal.vstr "N/A")
      = .ok (PyVal.vstr "N/A") := rfl
  have h5 : pyGet (PyVal.vdict entries) "EndPoint" (PyVal.vstr "N/A")
      = .ok ((dictGet entries "EndPoint").getD (PyVal.vstr "N/A")) := rfl
  have h6 : pyLower (PyVal.vstr "N/A") = .ok (pyLowerStr "N/A") := rfl
  have hev : evalBody name (PyVal.vdict entries) q p = .ok [] := by
    simp only [evalBody, h1, h2, h3, h4, h5, h6]
    rw [checkLoop_empty_resources]
  simp [process_json_file, hev]

/-- C4 (amended) witness at a concrete record with no `Data` key. -/
theorem claim_data_absent_silent_witness :
    dictGet [("EndPoint", PyVal.vstr "srv4")] "Data" = none
    ∧ process_json_file ⟨"srv4.json", .parsed (.vdict [("EndPoint", PyVal.vstr "srv4")])⟩
        demoReqs demoPkgs = ([], none) :=
  ⟨rfl, claim_data_absent_silent "srv4.json" [("EndPoint", PyVal.vstr "srv4")]
    demoReqs demoPkgs rfl⟩

/-- C2 (counterexample): the scan does not sort its output: under the legal
completion order `[recB, recA]` (a permutation of the dispatched
`[recA, recB]`) the returned violation list is ordered `b.json` before
`a.json`, which is not ascending in `(source_identifier, resource)`. -/
theorem claim_scan_sorted_cex :
    ([recB, recA] : List SRecord).Perm [recA, recB]
    ∧ ¬ List.Sorted vle
        (scan_servers_parallel [recA, recB] [recB, recA]
          demoReqs demoPkgs).unauthorized_servers := by
  refine ⟨List.Perm.swap recA recB [], ?_⟩
  intro hs
  have hpw : ((scan_servers_parallel [recA, recB] [recB, recA]
      demoReqs demoPkgs).unauthorized_servers.map vkey).Pairwise
      (fun x y => keyLeB x y = true) := List.pairwise_map.mpr hs
  have hmap : (scan_servers_parallel [recA, recB] [recB, recA]
      demoReqs demoPkgs).unauthorized_servers.map vkey
      = [("b.json", "gpu-cluster"), ("a.json", "gpu-cluster")] := by decide
  rw [hmap] at hpw
  have hle := (List.pairwise_cons.mp hpw).1 ("a.json", "gpu-cluster") (by simp)
  exact absurd hle (by decide)

/-- C2 (amended): the scan imposes no sort: the returned violation list is
the concatenation of the per-record violation lists in worker-completion
(arrival) order. -/
theorem claim_scan_arrival_order (json_files arrival : List SRecord)
    (q : Requirements) (p : UserPackages) (h : json_files ≠ []) :
    (scan_servers_parallel json_files arrival q p).unauthorized_servers
      = arrival.flatMap (fun r => (process_json_file r q p).1) := by
  rw [scan_ne_empty _ _ _ _ h, scanLoop_eq]

/-- C2 (amended) witness at a concrete one-record scan. -/
theorem claim_scan_arrival_order_witness :
    ([recA] : List SRecord) ≠ []
    ∧ (scan_servers_parallel [recA] [recA] demoReqs demoPkgs).unauthorized_servers
      = [recA].flatMap (fun r => (process_json_file r demoReqs demoPkgs).1) :=
  ⟨List.cons_ne_nil _ _,
   claim_scan_arrival_order [recA] [recA] demoReqs demoPkgs (List.cons_ne_nil _ _)⟩

/-- C5 (counterexample): diagnostics are not part of the scan's return
value: two inputs producing different diagnostics give identical return
triples, while the diagnostics (which are only printed) differ. -/
theorem claim_diagnostics_not_returned_cex :
    scanReturn (scan_servers_parallel [recBoom] [recBoom] demoReqs demoPkgs)
      = scanReturn (scan_servers_parallel [recZap] [recZap] demoReqs demoPkgs)
    ∧ (scan_servers_parallel [recBoom] [recBoom] demoReqs demoPkgs).printed_errors
      ≠ (scan_servers_parallel [recZap] [recZap] demoReqs demoPkgs).printed_errors := by
  refine ⟨rfl, ?_⟩
  decide

/-- C5 (amended): every per-record diagnostic is printed to the console, in
completion order, while the function's return value is the triple
`(violations, processedCount, foundCount)` with no diagnostic list. -/
theorem claim_diagnostics_printed (json_files arrival : List SRecord)
    (q : Requirements) (p : UserPackages) (h : json_files ≠ []) :
    (scan_servers_parallel json_files arrival q p).printed_errors
      = arrival.filterMap (fun r => (process_json_file r q p).2)
    ∧ scanReturn (scan_servers_parallel json_files arrival q p)
      = ((scan_servers_parallel json_files arrival q p).unauthorized_servers,
         (scan_servers_parallel json_files arrival q p).processed_files,
         (scan_servers_parallel json_files arrival q p).found_servers) := by
  refine ⟨?_, rfl⟩
  rw [scan_ne_empty _ _ _ _ h, scanLoop_eq]

/-- C5 (amended) witness at a concrete failing record. -/
theorem claim_diagnostics_printed_witness :
    ([recBoom] : List SRecord) ≠ []
    ∧ ((scan_servers_parallel [recBoom] [recBoom] demoReqs demoPkgs).printed_errors
        = [recBoom].filterMap (fun r => (process_json_file r demoReqs demoPkgs).2)
      ∧ scanReturn (scan_servers_parallel [recBoom] [recBoom] demoReqs demoPkgs)
        = ((scan_servers_parallel [recBoom] [recBoom] demoReqs demoPkgs).unauthorized_servers,
           (scan_servers_parallel [recBoom] [recBoom] demoReqs demoPkgs).processed_files,
           (scan_servers_parallel [recBoom] [recBoom] demoReqs demoPkgs).found_servers)) :=
  ⟨List.cons_ne_nil _ _,
   claim_diagnostics_printed [recBoom] [recBoom] demoReqs demoPkgs (List.cons_ne_nil _ _)⟩

/-- C6: empty-input laws: an empty record set short-circuits to empty
violations, zero counters and no printed diagnostics regardless of the
completion order; and an empty entitlement table yields an empty violation
list for every record set. -/
theorem claim_empty_input_laws :
    (∀ (arrival : List SRecord) (q : Requirements) (p : UserPackages),
      scan_servers_parallel [] arrival q p = ⟨[], 0, 0, []⟩)
    ∧ (∀ (json_files arrival : List SRecord) (p : UserPackages),
        (scan_servers_parallel json_files arrival [] p).unauthorized_servers = []) := by
  constructor
  · intro arrival q p
    rfl
  · intro json_files arrival p
    by_cases h : json_files = []
    · subst h
      rfl
    · rw [scan_ne_empty _ _ _ _ h, scanLoop_eq]
      have hall : ∀ r, (process_json_file r ([] : Requirements) p).1 = [] :=
        fun r => process_empty_reqs r p
      simp [hall]

/-- C10: counter consistency: the returned `processedCount` equals the
number of enumerated records, and the returned `foundCount` equals the
length of the returned violation list. -/
theorem claim_counters (json_files arrival : List SRecord)
    (q : Requirements) (p : UserPackages) (h : arrival.Perm json_files) :
    (scan_servers_parallel json_files arrival q p).processed_files
      = json_files.length
    ∧ (scan_servers_parallel json_files arrival q p).found_servers
      = (scan_servers_parallel json_files arrival q p).unauthorized_servers.length := by
  by_cases hempty : json_files = []
  · subst hempty
    have ha : arrival = [] := h.eq_nil
    subst ha
    exact ⟨rfl, rfl⟩
  · rw [scan_ne_empty _ _ _ _ hempty, scanLoop_eq]
    exact ⟨h.length_eq, rfl⟩

/-- C1: for a record of the documented shape that evaluates successfully,
exactly one ViolationEntry is produced for the (record, rule) pair iff the
rule's resource is contained in the record's resource list and the required
package is not in the owner's owned set (an absent owner owning nothing,
via the empty-set default of the index lookup). -/
theorem claim_resource_entitlement_iff
    (name : String) (endpoint profile : PyVal) (ownerS : String)
    (resItems : List PyVal) (q : Requirements) (p : UserPackages)
    (hq : (q.map Prod.fst).Nodup) (r pk : String) (hmem : (r, pk) ∈ q) :
    ((process_json_file (canonRecord name endpoint ownerS profile resItems) q p).1.countP
        (fun v => v.resource == r) = 1
      ↔ (PyVal.vstr r ∈ resItems ∧ pk ∉ alGetD p (pyLowerStr ownerS)))
    ∧ (process_json_file (canonRecord name endpoint ownerS profile resItems) q p).1.countP
        (fun v => v.resource == r) ≤ 1
    ∧ (process_json_file (canonRecord name endpoint ownerS profile resItems) q p).2
        = none := by
  obtain ⟨vs, hcl⟩ := checkLoop_vlist_ok name endpoint (.vstr ownerS) profile
    resItems (pyLowerStr ownerS) p q
  have hred : evalBody name (PyVal.vdict [("EndPoint", endpoint),
      ("Data", PyVal.vdict [("resources", PyVal.vlist resItems),
        ("ownerName", PyVal.vstr ownerS), ("ownerProfile", profile)])]) q p
      = checkLoop name endpoint (.vstr ownerS) profile (.vlist resItems)
          (pyLowerStr ownerS) p q := rfl
  have hp : process_json_file (canonRecord name endpoint ownerS profile resItems) q p
      = (vs, none) := by
    simp [process_json_file, canonRecord, hred, hcl]
  have hcount := checkLoop_countP name endpoint (.vstr ownerS) profile
    (.vlist resItems) (pyLowerStr ownerS) p r pk (strMem r resItems) rfl
    q vs hq hmem hcl
  rw [hp]
  dsimp only
  refine ⟨?_, ?_, rfl⟩
  · rw [hcount]
    by_cases hc : strMem r resItems = true ∧ pk ∉ alGetD p (pyLowerStr ownerS)
    · rw [if_pos hc]
      constructor
      · intro _
        exact ⟨(strMem_iff r resItems).mp hc.1, hc.2⟩
      · intro _
        rfl
    · rw [if_neg hc]
      constructor
      · intro h01
        exact absurd h01 (by omega)
      · intro hcc
        exact absurd ⟨(strMem_iff r resItems).mpr hcc.1, hcc.2⟩ hc
  · rw [hcount]
    split <;> omega

/-- C1 witness: the spec's concrete scenario for `srv2` — Bob uses the
gpu-cluster without owning `pkg-gpu`, producing exactly one entry. -/
theorem claim_resource_entitlement_iff_witness :
    ((demoReqs.map Prod.fst).Nodup)
    ∧ (("gpu-cluster", "pkg-gpu") ∈ demoReqs)
    ∧ (((process_json_file (canonRecord "srv2.json" (.vstr "srv2") "Bob"
            (.vstr "basic") [PyVal.vstr "gpu-cluster"]) demoReqs demoPkgs).1.countP
          (fun v => v.resource == "gpu-cluster") = 1
        ↔ (PyVal.vstr "gpu-cluster" ∈ [PyVal.vstr "gpu-cluster"]
            ∧ "pkg-gpu" ∉ alGetD demoPkgs (pyLowerStr "Bob")))
      ∧ (process_json_file (canonRecord "srv2.json" (.vstr "srv2") "Bob"
            (.vstr "basic") [PyVal.vstr "gpu-cluster"]) demoReqs demoPkgs).1.countP
          (fun v => v.resource == "gpu-cluster") ≤ 1
      ∧ (process_json_file (canonRecord "srv2.json" (.vstr "srv2") "Bob"
            (.vstr "basic") [PyVal.vstr "gpu-cluster"]) demoReqs demoPkgs).2
          = none) :=
  ⟨by decide, by decide,
   claim_resource_entitlement_iff "srv2.json" (.vstr "srv2") (.vstr "basic") "Bob"
     [PyVal.vstr "gpu-cluster"] demoReqs demoPkgs (by decide)
     "gpu-cluster" "pkg-gpu" (by decide)⟩

/-- C7: customer index union law: when some row matches lookup key `u`
(stripped, lower-cased username), the loaded index has exactly one entry for
`u`, whose owned set is the union of all matching rows' normalized package
sets; usernames are lower-cased as keys and the `Packages` field is
normalized by `normalizePackages`. -/
theorem claim_customer_union (rows : List CsvRow) (u : String)
    (hu : rows.any (matchRow u) = true) :
    (alKeys (load_customer_packages rows)).Nodup
    ∧ (load_customer_packages rows).countP (fun e => e.1 == u) = 1
    ∧ alGet (load_customer_packages rows) u = some (unionNorms rows u) := by
  have hnd : (alKeys (load_customer_packages rows)).Nodup := by
    unfold load_customer_packages
    exact load_go_nodup rows [] (by simp [alKeys])
  have hget : alGet (load_customer_packages rows) u = some (unionNorms rows u) := by
    unfold load_customer_packages
    rw [load_go_lookup u rows [], if_pos hu,
      show alGetD [] u = ∅ from rfl, Finset.empty_union]
  exact ⟨hnd, countP_key_eq_one _ u hnd (alGet_mem_keys _ u _ hget), hget⟩

/-- C7 witness: two rows for the same (differently-cased, padded) username
with bracketed and semicolon-separated package fields. -/
theorem claim_customer_union_witness :
    (([⟨"Alice", "[pkg-a]"⟩, ⟨" ALICE ", "pkg-b;pkg-c"⟩] : List CsvRow).any
        (matchRow "alice") = true)
    ∧ ((alKeys (load_customer_packages
          [⟨"Alice", "[pkg-a]"⟩, ⟨" ALICE ", "pkg-b;pkg-c"⟩])).Nodup
      ∧ (load_customer_packages
          [⟨"Alice", "[pkg-a]"⟩, ⟨" ALICE ", "pkg-b;pkg-c"⟩]).countP
          (fun e => e.1 == "alice") = 1
      ∧ alGet (load_customer_packages
          [⟨"Alice", "[pkg-a]"⟩, ⟨" ALICE ", "pkg-b;pkg-c"⟩]) "alice"
        = some (unionNorms [⟨"Alice", "[pkg-a]"⟩, ⟨" ALICE ", "pkg-b;pkg-c"⟩] "alice")) :=
  ⟨by decide, claim_customer_union _ "alice" (by decide)⟩

/-- C8: isolation: inserting one malformed record (at any position) leaves
the violation list, and hence every other record's violation outcome,
unchanged; it adds exactly one printed diagnostic and one processed count,
and leaves the found counter unchanged. -/
theorem claim_isolation (pre post : List SRecord) (bad : SRecord)
    (q : Requirements) (p : UserPackages) (m : String)
    (hbad : process_json_file bad q p = ([], some m)) :
    (scan_servers_parallel (pre ++ bad :: post) (pre ++ bad :: post) q p).unauthorized_servers
      = (scan_servers_parallel (pre ++ post) (pre ++ post) q p).unauthorized_servers
    ∧ (scan_servers_parallel (pre ++ bad :: post) (pre ++ bad :: post) q p).printed_errors.length
      = (scan_servers_parallel (pre ++ post) (pre ++ post) q p).printed_errors.length + 1
    ∧ (scan_servers_parallel (pre ++ bad :: post) (pre ++ bad :: post) q p).found_servers
      = (scan_servers_parallel (pre ++ post) (pre ++ post) q p).found_servers
    ∧ (scan_servers_parallel (pre ++ bad :: post) (pre ++ bad :: post) q p).processed_files
      = (scan_servers_parallel (pre ++ post) (pre ++ post) q p).processed_files + 1 := by
  rw [scan_eq_loop, scan_eq_loop, scanLoop_eq, scanLoop_eq]
  dsimp only
  simp only [List.flatMap_append, List.flatMap_cons, List.filterMap_append,
    List.filterMap_cons, hbad]
  refine ⟨by simp, ?_, by simp, ?_⟩
  · simp only [List.length_append, List.length_cons]
    omega
  · simp only [List.length_append, List.length_cons]
    omega

/-- C8 witness: one valid violating record plus one undecodable record. -/
theorem claim_isolation_witness :
    process_json_file recBoom demoReqs demoPkgs
      = ([], some "Error reading a.json: boom")
    ∧ ((scan_servers_parallel ([recA] ++ recBoom :: []) ([recA] ++ recBoom :: [])
          demoReqs demoPkgs).unauthorized_servers
        = (scan_servers_parallel ([recA] ++ []) ([recA] ++ [])
            demoReqs demoPkgs).unauthorized_servers
      ∧ (scan_servers_parallel ([recA] ++ recBoom :: []) ([recA] ++ recBoom :: [])
          demoReqs demoPkgs).printed_errors.length
        = (scan_servers_parallel ([recA] ++ []) ([recA] ++ [])
            demoReqs demoPkgs).printed_errors.length + 1
      ∧ (scan_servers_parallel ([recA] ++ recBoom :: []) ([recA] ++ recBoom :: [])
          demoReqs demoPkgs).found_servers
        = (scan_servers_parallel ([recA] ++ []) ([recA] ++ [])
            demoReqs demoPkgs).found_servers
      ∧ (scan_servers_parallel ([recA] ++ recBoom :: []) ([recA] ++ recBoom :: [])
          demoReqs demoPkgs).processed_files
        = (scan_servers_parallel ([recA] ++ []) ([recA] ++ [])
            demoReqs demoPkgs).processed_files + 1) :=
  ⟨rfl, claim_isolation [recA] [] recBoom demoReqs demoPkgs
    "Error reading a.json: boom" rfl⟩

/-- C9: determinism: two scans of the same dispatched record set under any
two completion orders produce the same violation multiset, and — when file
names and rule resources are pairwise distinct, as for a directory of files
and a dict-backed rule table — the same sequence after the deterministic
`(source_identifier, resource)` sort. -/
theorem claim_scan_deterministic (json_files a1 a2 : List SRecord)
    (q : Requirements) (p : UserPackages)
    (h1 : a1.Perm json_files) (h2 : a2.Perm json_files)
    (hn : (json_files.map SRecord.name).Nodup)
    (hq : (q.map Prod.fst).Nodup) :
    (scan_servers_parallel json_files a1 q p).unauthorized_servers.Perm
      (scan_servers_parallel json_files a2 q p).unauthorized_servers
    ∧ sortViolations (scan_servers_parallel json_files a1 q p).unauthorized_servers
      = sortViolations (scan_servers_parallel json_files a2 q p).unauthorized_servers := by
  by_cases hempty : json_files = []
  · subst hempty
    have e1 : a1 = [] := h1.eq_nil
    have e2 : a2 = [] := h2.eq_nil
    subst e1
    subst e2
    exact ⟨List.Perm.refl _, rfl⟩
  · rw [scan_ne_empty _ _ _ _ hempty, scan_ne_empty _ _ _ _ hempty,
      scanLoop_eq, scanLoop_eq]
    dsimp only
    have hvperm : (a1.flatMap (fun r => (process_json_file r q p).1)).Perm
        (a2.flatMap (fun r => (process_json_file r q p).1)) :=
      List.Perm.flatMap_right _ (h1.trans h2.symm)
    refine ⟨hvperm, ?_⟩
    have hn1 : (a1.map SRecord.name).Nodup := ((h1.map SRecord.name).nodup_iff).mpr hn
    have hk1 : ((a1.flatMap (fun r => (process_json_file r q p).1)).map vkey).Nodup :=
      flatMap_vkey_nodup q p hq a1 hn1
    have hs1 := List.sorted_insertionSort vle
      (a1.flatMap (fun r => (process_json_file r q p).1))
    have hs2 := List.sorted_insertionSort vle
      (a2.flatMap (fun r => (process_json_file r q p).1))
    have hp1 := List.perm_insertionSort vle
      (a1.flatMap (fun r => (process_json_file r q p).1))
    have hp2 := List.perm_insertionSort vle
      (a2.flatMap (fun r => (process_json_file r q p).1))
    have hperm12 : (sortViolations (a1.flatMap (fun r => (process_json_file r q p).1))).Perm
        (sortViolations (a2.flatMap (fun r => (process_json_file r q p).1))) :=
      hp1.trans (hvperm.trans hp2.symm)
    have hknd : ((sortViolations (a1.flatMap (fun r => (process_json_file r q p).1))).map
        vkey).Nodup := ((hp1.map vkey).nodup_iff).mpr hk1
    exact sorted_perm_nodup_eq hperm12 hs1 hs2 hknd

/-- C9 witness: the two-record demo set under the swapped and the identity
completion orders. -/
theorem claim_scan_deterministic_witness :
    ([recB, recA] : List SRecord).Perm [recA, recB]
    ∧ ([recA, recB] : List SRecord).Perm [recA, recB]
    ∧ (([recA, recB] : List SRecord).map SRecord.name).Nodup
    ∧ ((demoReqs.map Prod.fst).Nodup)
    ∧ ((scan_servers_parallel [recA, recB] [recB, recA]
          demoReqs demoPkgs).unauthorized_servers.Perm
        (scan_servers_parallel [recA, recB] [recA, recB]
          demoReqs demoPkgs).unauthorized_servers
      ∧ sortViolations (scan_servers_parallel [recA, recB] [recB, recA]
          demoReqs demoPkgs).unauthorized_servers
        = sortViolations (scan_servers_parallel [recA, recB] [recA, recB]
            demoReqs demoPkgs).unauthorized_servers) :=
  ⟨List.Perm.swap recA recB [], List.Perm.refl _, by decide, by decide,
   claim_scan_deterministic [recA, recB] [recB, recA] [recA, recB]
     demoReqs demoPkgs (List.Perm.swap recA recB []) (List.Perm.refl _)
     (by decide) (by decide)⟩

/-- C10 witness at a concrete two-record scan (one record violating, one
failing to decode). -/
theorem claim_counters_witness :
    ([recA, recBoom] : List SRecord).Perm [recA, recBoom]
    ∧ ((scan_servers_parallel [recA, recBoom] [recA, recBoom]
          demoReqs demoPkgs).processed_files = ([recA, recBoom] : List SRecord).length
      ∧ (scan_servers_parallel [recA, recBoom] [recA, recBoom]
          demoReqs demoPkgs).found_servers
        = (scan_servers_parallel [recA, recBoom] [recA, recBoom]
            demoReqs demoPkgs).unauthorized_servers.length) :=
  ⟨List.Perm.refl _,
   claim_counters [recA, recBoom] [recA, recBoom] demoReqs demoPkgs (List.Perm.refl _)⟩

end NexoraCheck
